import Mathlib

/-!
Verification development for the cantools repository (subparsers
`generate_c_source.py` and `cli.py`, and `logreader.py`).

The Python source is shallowly embedded: pure helper functions become Lean
functions, generator loops become fuel-bounded recursions (the fuel bound is
proved sufficient where it matters), Python arbitrary-precision integers
become `Nat`/`Int`, and `decimal.Decimal` arithmetic — exact on the values
manipulated here — is modelled by `ℚ`.
-/

namespace Cantools

/-! ### Segment planner (`generate_c_source._signal_segments`)

`_signal_segments` walks a signal's bit range, yielding one
`(byte index, shift string, byte mask)` triple per payload byte touched.
The shift is computed as a Python `int` (possibly negative) and then
formatted as a C shift operator; we keep the two stages separate:
`planStep` performs one iteration of the `while` loop body producing the
integer shift, `formatShift` renders it per `invert_shift`.
-/

inductive ByteOrder
| big_endian
| little_endian
deriving DecidableEq

/-- A formatted C shift operator: `'<< n'` or `'>> n'`. -/
inductive ShiftOp
| shl : Nat → ShiftOp
| shr : Nat → ShiftOp
deriving DecidableEq

def ShiftOp.amount : ShiftOp → Nat
| .shl n => n
| .shr n => n

def ShiftOp.isShl : ShiftOp → Bool
| .shl _ => true
| .shr _ => false

structure Segment where
  index : Nat
  shift : ShiftOp
  mask : Nat
deriving DecidableEq

/-- The loop state of `_signal_segments`: current byte index, bit position
within the byte, and number of signal bits left to place. -/
structure PlanState where
  index : Nat
  pos : Nat
  left : Nat
deriving DecidableEq

/-- One iteration of the `while left > 0` loop body of `_signal_segments`,
before shift formatting.  Returns `(index, shift, mask)` (shift as `Int`,
matching Python's signed arithmetic) and the state after the trailing
`left -= length; index += 1` updates.  Python's `pos - length + 1` and
`8 - pos` are written so that `Nat` subtraction agrees with Python's `int`
subtraction on the reachable states (`pos ≤ 7`, and in the big-endian else
branch `length ≤ pos + 1`). -/
def planStep (byte_order : ByteOrder) (sigLength : Nat) (s : PlanState) :
    (Nat × Int × Nat) × PlanState :=
  match byte_order with
  | .big_endian =>
    if s.left > s.pos + 1 then
      let length := s.pos + 1
      let shift : Int := -((s.left : Int) - (length : Int))
      let mask := (1 <<< length) - 1
      ((s.index, shift, mask), ⟨s.index + 1, 7, s.left - length⟩)
    else
      let length := s.left
      let shift : Int :=
        if (s.pos : Int) - (length : Int) ≥ 0 then
          (s.pos : Int) - (length : Int) + 1
        else
          (8 : Int) - (s.left : Int)
      let mask := ((1 <<< length) - 1) <<< (s.pos + 1 - length)
      ((s.index, shift, mask), ⟨s.index + 1, s.pos, s.left - length⟩)
  | .little_endian =>
    if s.left ≥ 8 - s.pos then
      let length := 8 - s.pos
      let shift : Int := ((s.left : Int) - (sigLength : Int)) + (s.pos : Int)
      let mask := ((1 <<< length) - 1) <<< s.pos
      ((s.index, shift, mask), ⟨s.index + 1, 0, s.left - length⟩)
    else
      let length := s.left
      let shift : Int := (s.pos : Int)
      let mask := ((1 <<< length) - 1) <<< s.pos
      ((s.index, shift, mask), ⟨s.index + 1, s.pos, s.left - length⟩)

/-- The `if invert_shift: ... else: ...` formatting of the integer shift. -/
def formatShift (invert_shift : Bool) (shift : Int) : ShiftOp :=
  if invert_shift then
    if shift < 0 then .shl (-shift).toNat else .shr shift.toNat
  else
    if shift < 0 then .shr (-shift).toNat else .shl shift.toNat

/-- The `while left > 0` loop of `_signal_segments`, with explicit fuel.
Each iteration consumes at least one bit on the states reachable from
`initState` (where `pos ≤ 7`), so fuel `signal.length` is enough. -/
def segmentsAux (byte_order : ByteOrder) (sigLength : Nat) (invert_shift : Bool) :
    Nat → PlanState → List Segment
| 0, _ => []
| fuel + 1, s =>
  if s.left = 0 then []
  else
    let step := planStep byte_order sigLength s
    { index := step.1.1,
      shift := formatShift invert_shift step.1.2.1,
      mask := step.1.2.2 } ::
      segmentsAux byte_order sigLength invert_shift fuel step.2

structure Signal where
  start : Nat
  length : Nat
  byte_order : ByteOrder
  is_signed : Bool
  is_float : Bool
deriving DecidableEq

/-- `index, pos = divmod(signal.start, 8); left = signal.length`. -/
def initState (signal : Signal) : PlanState :=
  ⟨signal.start / 8, signal.start % 8, signal.length⟩

def _signal_segments (signal : Signal) (invert_shift : Bool) : List Segment :=
  segmentsAux signal.byte_order signal.length invert_shift signal.length
    (initState signal)

/-! ### The generated C encode/decode statements

`_format_encode_code` emits `dst_p[index] |= ((src shift) & mask);` for every
segment produced with `invert_shift=False`; `_format_decode_code` emits
`dst |= ((uintN_t)(src_p[index] & mask) shift);` for every segment produced
with `invert_shift=True`, where `N` is the smallest of 8/16/32/64 holding the
signal, and `dst` is a field of that width (so each assignment is reduced
mod `2^N`).  We evaluate those statements on a frame modelled as a list of
byte values. -/

def applyShift (v : Nat) : ShiftOp → Nat
| .shl n => v <<< n
| .shr n => v >>> n

def encodeSegment (v : Nat) (frame : List Nat) (seg : Segment) : List Nat :=
  frame.set seg.index ((frame.getD seg.index 0) ||| (applyShift v seg.shift &&& seg.mask))

/-- Run the generated encode statements of one signal over a zero-or-partial
frame, with the signal's raw value `v`. -/
def encodeSignal (signal : Signal) (v : Nat) (frame : List Nat) : List Nat :=
  (_signal_segments signal false).foldl (encodeSegment v) frame

/-- The `type_length` computation of `_format_decode_code`. -/
def typeLength (len : Nat) : Nat :=
  if len ≤ 8 then 8
  else if len ≤ 16 then 16
  else if len ≤ 32 then 32
  else 64

def decodeSegment (tl : Nat) (frame : List Nat) (acc : Nat) (seg : Segment) : Nat :=
  (acc ||| applyShift ((frame.getD seg.index 0) &&& seg.mask) seg.shift) % 2 ^ tl

/-- Run the generated decode statements of one signal over a frame, producing
the assembled raw (not yet sign-extended) value. -/
def decodeRaw (signal : Signal) (frame : List Nat) : Nat :=
  (_signal_segments signal true).foldl
    (decodeSegment (typeLength signal.length) frame) 0

/-! ### Claim C1: the cross-byte-boundary scenario -/

/-- The signal of C1: unsigned little-endian, `start_bit=4`, `bit_length=12`. -/
def c1Signal : Signal :=
  { start := 4, length := 12, byte_order := .little_endian,
    is_signed := false, is_float := false }

def zeroFrame8 : List Nat := List.replicate 8 0

def c1Encoded : List Nat := encodeSignal c1Signal 0xABC zeroFrame8

/-- C1: FALSE as stated.  Encoding raw `0xABC` into the unsigned little-endian
signal `start_bit=4, bit_length=12` of a zeroed 8-byte frame does NOT give
byte 0 = `0xC4` and byte 1 = `0x0A`: the generated statements
`dst_p[0] |= ((src << 4) & 0xf0)` and `dst_p[1] |= ((src >> 4) & 0xff)`
give byte 0 = `0xC0` and byte 1 = `0xAB`. -/
theorem c1_cross_byte_claim_false :
    ¬(c1Encoded.getD 0 0 = 0xC4 ∧ c1Encoded.getD 1 0 = 0x0A ∧
      decodeRaw c1Signal c1Encoded = 0xABC) := by
  decide

/-- C1 (amended): encoding raw value `0xABC` into an unsigned little-endian
signal with `start_bit = 4` and `bit_length = 12` spanning bytes 0-1 of a
zero-initialized 8-byte frame places byte 0 = `0xC0` (the low 4 bits of the
value in the high nibble of byte 0, low nibble preserved as 0) and
byte 1 = `0xAB`, and decoding that same buffer returns exactly `0xABC`. -/
theorem c1_cross_byte_amended :
    c1Encoded.getD 0 0 = 0xC0 ∧ c1Encoded.getD 1 0 = 0xAB ∧
    c1Encoded = [0xC0, 0xAB, 0, 0, 0, 0, 0, 0] ∧
    decodeRaw c1Signal c1Encoded = 0xABC := by
  decide

/-! ### Population count

A fuel-bounded binary population count (fuel `n` suffices for argument `n`),
used to state that the per-byte masks of a segment plan cover exactly
`bit_length` bits. -/

def popCountAux : Nat → Nat → Nat
| 0, _ => 0
| fuel + 1, n => if n = 0 then 0 else n % 2 + popCountAux fuel (n / 2)

def popCount (n : Nat) : Nat := popCountAux n n

lemma popCountAux_congr :
    ∀ fuel1 fuel2 n, n ≤ fuel1 → n ≤ fuel2 →
      popCountAux fuel1 n = popCountAux fuel2 n := by
  intro fuel1
  induction fuel1 with
  | zero =>
    intro fuel2 n h1 _
    interval_cases n
    cases fuel2 <;> simp [popCountAux]
  | succ fuel ih =>
    intro fuel2 n h1 h2
    rcases Nat.eq_zero_or_pos n with hn | hn
    · subst hn
      cases fuel2 <;> simp [popCountAux]
    · obtain ⟨fuel2', rfl⟩ : ∃ k, fuel2 = k + 1 :=
        ⟨fuel2 - 1, by omega⟩
      have hdiv : n / 2 < n := Nat.div_lt_self hn one_lt_two
      simp only [popCountAux, if_neg (Nat.pos_iff_ne_zero.mp hn)]
      rw [ih fuel2' (n / 2) (by omega) (by omega)]

lemma popCount_eq (n : Nat) :
    popCount n = if n = 0 then 0 else n % 2 + popCount (n / 2) := by
  rcases Nat.eq_zero_or_pos n with hn | hn
  · subst hn; rfl
  · obtain ⟨m, rfl⟩ : ∃ k, n = k + 1 := ⟨n - 1, by omega⟩
    simp only [popCount, popCountAux, if_neg (Nat.succ_ne_zero m)]
    rw [popCountAux_congr m ((m + 1) / 2) ((m + 1) / 2) (by omega) le_rfl]

lemma popCount_two_mul (n : Nat) : popCount (2 * n) = popCount n := by
  rcases Nat.eq_zero_or_pos n with hn | hn
  · subst hn; rfl
  · rw [popCount_eq (2 * n), if_neg (by omega)]
    simp [Nat.mul_mod_right, Nat.mul_div_cancel_left _ (two_pos)]

lemma popCount_two_mul_add_one (n : Nat) :
    popCount (2 * n + 1) = 1 + popCount n := by
  rw [popCount_eq (2 * n + 1), if_neg (by omega)]
  have h1 : (2 * n + 1) % 2 = 1 := by omega
  have h2 : (2 * n + 1) / 2 = n := by omega
  rw [h1, h2]

lemma popCount_ones (a : Nat) : popCount (2 ^ a - 1) = a := by
  induction a with
  | zero => rfl
  | succ a ih =>
    have h : 2 ^ (a + 1) - 1 = 2 * (2 ^ a - 1) + 1 := by
      have := Nat.one_le_two_pow (n := a)
      rw [pow_succ]
      omega
    rw [h, popCount_two_mul_add_one, ih]
    omega

lemma popCount_mul_two_pow (x b : Nat) : popCount (x * 2 ^ b) = popCount x := by
  induction b with
  | zero => simp
  | succ b ih =>
    have h : x * 2 ^ (b + 1) = 2 * (x * 2 ^ b) := by ring
    rw [h, popCount_two_mul, ih]

lemma popCount_ones_shift (a b : Nat) :
    popCount (((1 <<< a) - 1) <<< b) = a := by
  rw [Nat.shiftLeft_eq, Nat.shiftLeft_eq, one_mul, popCount_mul_two_pow,
    popCount_ones]

/-! ### Per-step behaviour of the planner loop -/

/-- Bits consumed by one loop iteration of `_signal_segments`. -/
def takenBits (byte_order : ByteOrder) (s : PlanState) : Nat :=
  match byte_order with
  | .big_endian => min s.left (s.pos + 1)
  | .little_endian => min s.left (8 - s.pos)

lemma planStep_spec (byte_order : ByteOrder) (sigLen : Nat) (s : PlanState)
    (hpos : s.pos < 8) (hleft : 0 < s.left) :
    (planStep byte_order sigLen s).1.1 = s.index ∧
    (planStep byte_order sigLen s).2.index = s.index + 1 ∧
    (planStep byte_order sigLen s).2.left = s.left - takenBits byte_order s ∧
    (planStep byte_order sigLen s).2.pos < 8 ∧
    0 < takenBits byte_order s ∧
    takenBits byte_order s ≤ s.left ∧
    (0 < (planStep byte_order sigLen s).2.left →
      (planStep byte_order sigLen s).2.pos =
        (match byte_order with
         | .big_endian => 7
         | .little_endian => 0)) ∧
    popCount (planStep byte_order sigLen s).1.2.2 = takenBits byte_order s := by
  cases byte_order with
  | big_endian =>
    by_cases h : s.left > s.pos + 1
    · simp only [planStep, takenBits, if_pos h]
      refine ⟨by trivial, by trivial, by omega, by omega, by omega, by omega,
        fun _ => by trivial, ?_⟩
      have hpc : popCount (1 <<< (s.pos + 1) - 1) = s.pos + 1 := by
        simpa using popCount_ones_shift (s.pos + 1) 0
      rw [hpc]
      omega
    · simp only [planStep, takenBits, if_neg h]
      refine ⟨by trivial, by trivial, by omega, by omega, by omega, by omega,
        fun hc => by omega, ?_⟩
      rw [popCount_ones_shift]
      omega
  | little_endian =>
    by_cases h : s.left ≥ 8 - s.pos
    · simp only [planStep, takenBits, if_pos h]
      refine ⟨by trivial, by trivial, by omega, by omega, by omega, by omega,
        fun _ => by trivial, ?_⟩
      rw [popCount_ones_shift]
      omega
    · simp only [planStep, takenBits, if_neg h]
      refine ⟨by trivial, by trivial, by omega, by omega, by omega, by omega,
        fun hc => by omega, ?_⟩
      rw [popCount_ones_shift]
      omega

lemma segmentsAux_cons (byte_order : ByteOrder) (sigLen : Nat) (inv : Bool)
    (fuel : Nat) (s : PlanState) (h : s.left ≠ 0) :
    segmentsAux byte_order sigLen inv (fuel + 1) s =
      { index := (planStep byte_order sigLen s).1.1,
        shift := formatShift inv (planStep byte_order sigLen s).1.2.1,
        mask := (planStep byte_order sigLen s).1.2.2 } ::
      segmentsAux byte_order sigLen inv fuel (planStep byte_order sigLen s).2 := by
  simp [segmentsAux, h]

/-- Main induction for C2: over any run of the planner loop from a state with
a legal bit position, the emitted byte indices are consecutive starting at the
state's byte index, and the mask bits sum to the remaining bit count. -/
lemma segmentsAux_spec (byte_order : ByteOrder) (sigLen : Nat) (inv : Bool) :
    ∀ fuel s, s.pos < 8 → s.left ≤ fuel →
      (segmentsAux byte_order sigLen inv fuel s).map Segment.index =
        List.range' s.index (segmentsAux byte_order sigLen inv fuel s).length ∧
      ((segmentsAux byte_order sigLen inv fuel s).map
        (fun seg => popCount seg.mask)).sum = s.left := by
  intro fuel
  induction fuel with
  | zero =>
    intro s hpos hleft
    have h0 : s.left = 0 := by omega
    simp [segmentsAux, h0]
  | succ fuel ih =>
    intro s hpos hleft
    by_cases h0 : s.left = 0
    · simp [segmentsAux, h0]
    · obtain ⟨hidx, hnextidx, hnextleft, hnextpos, htkpos, htkle, _, hpop⟩ :=
        planStep_spec byte_order sigLen s hpos (by omega)
      have hih := ih (planStep byte_order sigLen s).2 hnextpos (by omega)
      have h1 := hih.1
      have h2 := hih.2
      rw [hnextidx] at h1
      rw [segmentsAux_cons byte_order sigLen inv fuel s h0]
      constructor
      · simp only [List.map_cons, List.length_cons, hidx, List.range'_succ]
        rw [h1]
      · simp only [List.map_cons, List.sum_cons, hpop, h2, hnextleft]
        omega

/-- C2: for every signal with `start_bit ≥ 0`, `bit_length ∈ [1, 64]` and
either byte order, the segment sequence produced by `_signal_segments` (a
finite list by construction) visits strictly consecutive byte indices
beginning at `start_bit / 8`, and the total number of set bits in the
per-byte masks over all segments is exactly `bit_length`. -/
theorem c2_segment_planner (signal : Signal) (inv : Bool)
    (h1 : 1 ≤ signal.length) (h2 : signal.length ≤ 64) :
    (_signal_segments signal inv).map Segment.index =
      List.range' (signal.start / 8) (_signal_segments signal inv).length ∧
    ((_signal_segments signal inv).map (fun seg => popCount seg.mask)).sum =
      signal.length := by
  have hpos : (initState signal).pos < 8 := Nat.mod_lt _ (by norm_num)
  have h := segmentsAux_spec signal.byte_order signal.length inv signal.length
    (initState signal) hpos le_rfl
  exact h

/-- C2 witness: the planner applied to the concrete little-endian signal
`start_bit=4, bit_length=12`. -/
theorem c2_segment_planner_witness :
    1 ≤ c1Signal.length ∧ c1Signal.length ≤ 64 ∧
    ((_signal_segments c1Signal false).map Segment.index =
      List.range' (c1Signal.start / 8) (_signal_segments c1Signal false).length ∧
    ((_signal_segments c1Signal false).map (fun seg => popCount seg.mask)).sum =
      c1Signal.length) :=
  ⟨by decide, by decide,
    c2_segment_planner c1Signal false (by decide) (by decide)⟩

/-- C3: starting from `byte_index = start_bit / 8`,
`bit_position = start_bit % 8`, each planner step with byte order
little_endian takes `min(remaining, 8 - bit_position)` bits from the current
byte, each step with byte order big_endian takes
`min(remaining, bit_position + 1)` bits, and the cursor then advances to
`byte_index + 1` with bit position 0 (little_endian) resp. 7 (big_endian)
whenever bits remain to be consumed. -/
theorem c3_planner_cursor (signal : Signal) (s : PlanState)
    (hlen1 : 1 ≤ signal.length) (hlen2 : signal.length ≤ 64)
    (hpos : s.pos < 8) (hleft : 0 < s.left) :
    (initState signal).index = signal.start / 8 ∧
    (initState signal).pos = signal.start % 8 ∧
    (initState signal).left = signal.length ∧
    s.left - (planStep signal.byte_order signal.length s).2.left =
      (match signal.byte_order with
       | .big_endian => min s.left (s.pos + 1)
       | .little_endian => min s.left (8 - s.pos)) ∧
    (planStep signal.byte_order signal.length s).2.index = s.index + 1 ∧
    (0 < (planStep signal.byte_order signal.length s).2.left →
      (planStep signal.byte_order signal.length s).2.pos =
        (match signal.byte_order with
         | .big_endian => 7
         | .little_endian => 0)) := by
  obtain ⟨_, hnextidx, hnextleft, _, htkpos, htkle, hcursor, _⟩ :=
    planStep_spec signal.byte_order signal.length s hpos hleft
  refine ⟨rfl, rfl, rfl, ?_, hnextidx, hcursor⟩
  rw [hnextleft]
  cases signal.byte_order <;> simp only [takenBits] <;> omega

/-- C3 witness: the first step of the plan for the concrete little-endian
signal `start_bit=4, bit_length=12`. -/
theorem c3_planner_cursor_witness :
    1 ≤ c1Signal.length ∧ c1Signal.length ≤ 64 ∧
    (0 : Nat) < 8 ∧ (0 : Nat) < 12 ∧
    ((initState c1Signal).index = c1Signal.start / 8 ∧
     (initState c1Signal).pos = c1Signal.start % 8 ∧
     (initState c1Signal).left = c1Signal.length ∧
     (⟨0, 4, 12⟩ : PlanState).left -
       (planStep c1Signal.byte_order c1Signal.length ⟨0, 4, 12⟩).2.left =
       (match c1Signal.byte_order with
        | .big_endian => min (⟨0, 4, 12⟩ : PlanState).left
            ((⟨0, 4, 12⟩ : PlanState).pos + 1)
        | .little_endian => min (⟨0, 4, 12⟩ : PlanState).left
            (8 - (⟨0, 4, 12⟩ : PlanState).pos)) ∧
     (planStep c1Signal.byte_order c1Signal.length ⟨0, 4, 12⟩).2.index =
       (⟨0, 4, 12⟩ : PlanState).index + 1 ∧
     (0 < (planStep c1Signal.byte_order c1Signal.length ⟨0, 4, 12⟩).2.left →
       (planStep c1Signal.byte_order c1Signal.length ⟨0, 4, 12⟩).2.pos =
         (match c1Signal.byte_order with
          | .big_endian => 7
          | .little_endian => 0))) :=
  ⟨by decide, by decide, by decide, by decide,
    c3_planner_cursor c1Signal ⟨0, 4, 12⟩ (by decide) (by decide)
      (by decide) (by decide)⟩

/-! ### Claim C5: the plan is shared between encode and decode -/

/-- Two segments agree up to shift direction: same byte index, same mask,
same shift magnitude, opposite shift operators. -/
def segMirror (a b : Segment) : Prop :=
  a.index = b.index ∧ a.mask = b.mask ∧
  a.shift.amount = b.shift.amount ∧ a.shift.isShl = !b.shift.isShl

lemma formatShift_amount (z : Int) :
    (formatShift false z).amount = (formatShift true z).amount := by
  unfold formatShift
  by_cases h : z < 0 <;> simp [h, ShiftOp.amount]

lemma formatShift_dir (z : Int) :
    (formatShift false z).isShl = !(formatShift true z).isShl := by
  unfold formatShift
  by_cases h : z < 0 <;> simp [h, ShiftOp.isShl]

lemma segmentsAux_mirror (byte_order : ByteOrder) (sigLen : Nat) :
    ∀ fuel s, List.Forall₂ segMirror
      (segmentsAux byte_order sigLen false fuel s)
      (segmentsAux byte_order sigLen true fuel s) := by
  intro fuel
  induction fuel with
  | zero => intro s; simp [segmentsAux]
  | succ fuel ih =>
    intro s
    by_cases h0 : s.left = 0
    · simp [segmentsAux, h0]
    · rw [segmentsAux_cons byte_order sigLen false fuel s h0,
        segmentsAux_cons byte_order sigLen true fuel s h0]
      exact List.Forall₂.cons
        ⟨rfl, rfl, formatShift_amount _, formatShift_dir _⟩
        (ih (planStep byte_order sigLen s).2)

/-- C5: running the segment planner with `invert_shift = false` (encode) and
`invert_shift = true` (decode) yields the same ordered sequence of
`(byte_index, mask)` pairs with identical shift magnitudes; only the shift
direction (`<<` versus `>>`) is reversed between the two runs. -/
theorem c5_plan_shared (signal : Signal) :
    List.Forall₂ segMirror
      (_signal_segments signal false) (_signal_segments signal true) :=
  segmentsAux_mirror signal.byte_order signal.length signal.length
    (initState signal)

/-! ### Claim C4: sign extension in the generated decode

`_format_decode_code` emits, for a signed non-float signal,
`if (dst & (1 << (length - 1))) { dst |= mask; }` where
`mask = ((1 << (type_length - length)) - 1) << length` and `type_length` is
the smallest of 8/16/32/64 holding `length`.  The C `dst` field is an
`intN_t`; reading the resulting `N`-bit pattern as a signed integer is
modelled by `toSigned`. -/

def signExtensionMask (len : Nat) : Nat :=
  ((1 <<< (typeLength len - len)) - 1) <<< len

/-- The generated sign-extension statement evaluated on the assembled raw
value (as the `N`-bit pattern held by the destination field). -/
def applySignExtension (len : Nat) (raw : Nat) : Nat :=
  if raw &&& (1 <<< (len - 1)) ≠ 0 then raw ||| signExtensionMask len else raw

/-- Two's-complement reading of an `w`-bit pattern. -/
def toSigned (w : Nat) (v : Nat) : Int :=
  if v < 2 ^ (w - 1) then (v : Int) else (v : Int) - 2 ^ w

lemma typeLength_ge (len : Nat) (h : len ≤ 64) : len ≤ typeLength len := by
  unfold typeLength
  split_ifs <;> omega

/-- C4: for every signed non-float signal with `bit_length ∈ [1, 64]`, the
generated decode sign-extends by testing bit `bit_length - 1` of the
assembled raw value and, when it is set, OR-ing in exactly the bits from
position `bit_length` up to the container width (the smallest of 8/16/32/64
bits holding `bit_length`); in particular a signed 4-bit field with wire
bits `1111` decodes to raw value `-1` and with wire bits `0111` to `7`. -/
theorem c4_sign_extension (len : Nat) (h1 : 1 ≤ len) (h2 : len ≤ 64) :
    (∀ i, (signExtensionMask len).testBit i = true ↔
      len ≤ i ∧ i < typeLength len) ∧
    (∀ raw, applySignExtension len raw =
      if raw.testBit (len - 1) then raw ||| signExtensionMask len else raw) ∧
    toSigned (typeLength 4) (applySignExtension 4 0xF) = -1 ∧
    toSigned (typeLength 4) (applySignExtension 4 0x7) = 7 := by
  have hle : len ≤ typeLength len := typeLength_ge len h2
  refine ⟨?_, ?_, by decide, by decide⟩
  · intro i
    rw [signExtensionMask, Nat.one_shiftLeft, Nat.testBit_shiftLeft,
      Nat.testBit_two_pow_sub_one]
    simp only [Bool.and_eq_true, decide_eq_true_eq]
    omega
  · intro raw
    unfold applySignExtension
    rw [Nat.one_shiftLeft, Nat.and_two_pow]
    cases hb : raw.testBit (len - 1) <;> simp [hb]

/-- C4 witness: the general parts instantiated at `len = 4`, bit 5. -/
theorem c4_sign_extension_witness :
    1 ≤ 4 ∧ (4 : Nat) ≤ 64 ∧
    ((signExtensionMask 4).testBit 5 = true ↔ 4 ≤ 5 ∧ 5 < typeLength 4) ∧
    (applySignExtension 4 0xF =
      if (0xF : Nat).testBit 3 then 0xF ||| signExtensionMask 4 else 0xF) ∧
    toSigned (typeLength 4) (applySignExtension 4 0xF) = -1 ∧
    toSigned (typeLength 4) (applySignExtension 4 0x7) = 7 :=
  ⟨by decide, by decide,
    (c4_sign_extension 4 (by decide) (by decide)).1 5,
    (c4_sign_extension 4 (by decide) (by decide)).2.1 0xF,
    (c4_sign_extension 4 (by decide) (by decide)).2.2.1,
    (c4_sign_extension 4 (by decide) (by decide)).2.2.2⟩

/-! ### Claim C6: the generated `is_in_range` check

`_generate_is_in_range` converts the physical bounds back to the raw
domain with `offset = decimal.offset / scale` and
`minimum = int(minimum / scale - offset)` (resp. `maximum`), Python's `int`
being truncation toward zero, and emits `(value >= minimum) && (value <=
maximum)` with a conjunct omitted when its bound is `None` or equals the
extreme value of the signal's C type (`_is_minimum_type_value`,
`_is_maximum_type_value`).  `decimal.Decimal` arithmetic is modelled
exactly, by `ℚ`. -/

/-- Python `int()` applied to a rational: truncation toward zero. -/
def truncQ (q : ℚ) : Int := if q < 0 then ⌈q⌉ else ⌊q⌋

/-- A generated C integer type (`int8_t` … `uint64_t`). -/
structure CType where
  signed : Bool
  bits : Nat
deriving DecidableEq

/-- `_is_minimum_type_value(type_name, value)`. -/
def isMinimumTypeValue (t : CType) (value : Int) : Bool :=
  if t.signed then
    match t.bits with
    | 8 => decide (value = -128)
    | 16 => decide (value = -32768)
    | 32 => decide (value = -2147483648)
    | 64 => decide (value = -9223372036854775808)
    | _ => false
  else
    decide (value = 0)

/-- `_is_maximum_type_value(type_name, value)`. -/
def isMaximumTypeValue (t : CType) (value : Int) : Bool :=
  if t.signed then
    match t.bits with
    | 8 => decide (value = 127)
    | 16 => decide (value = 32767)
    | 32 => decide (value = 2147483647)
    | 64 => decide (value = 9223372036854775807)
    | _ => false
  else
    match t.bits with
    | 8 => decide (value = 255)
    | 16 => decide (value = 65535)
    | 32 => decide (value = 4294967295)
    | 64 => decide (value = 18446744073709551615)
    | _ => false

def ctypeMin (t : CType) : Int :=
  if t.signed then -(2 ^ (t.bits - 1)) else 0

def ctypeMax (t : CType) : Int :=
  if t.signed then 2 ^ (t.bits - 1) - 1 else 2 ^ t.bits - 1

structure RangeSignal where
  scale : ℚ
  offset : ℚ
  minimum : Option ℚ
  maximum : Option ℚ
  ctype : CType
deriving DecidableEq

/-- `int(minimum / scale - offset)` with `offset = decimal.offset / scale`. -/
def rangeMinRaw (sig : RangeSignal) : Option Int :=
  sig.minimum.map (fun m => truncQ (m / sig.scale - sig.offset / sig.scale))

/-- `int(maximum / scale - offset)` with `offset = decimal.offset / scale`. -/
def rangeMaxRaw (sig : RangeSignal) : Option Int :=
  sig.maximum.map (fun m => truncQ (m / sig.scale - sig.offset / sig.scale))

/-- The generated `..._is_in_range(value)` body: the conjunction of the
emitted checks (`true` when a check is omitted). -/
def isInRangeCheck (sig : RangeSignal) (value : Int) : Bool :=
  (match rangeMinRaw sig with
   | none => true
   | some m => if isMinimumTypeValue sig.ctype m then true else decide (value ≥ m)) &&
  (match rangeMaxRaw sig with
   | none => true
   | some m => if isMaximumTypeValue sig.ctype m then true else decide (value ≤ m))

lemma truncQ_le_of_le {q : ℚ} {v : Int} (h : q ≤ (v : ℚ)) : truncQ q ≤ v := by
  unfold truncQ
  split
  · exact Int.ceil_le.mpr h
  · have hf : ((⌊q⌋ : ℚ)) ≤ (v : ℚ) := le_trans (Int.floor_le q) h
    exact_mod_cast hf

lemma le_truncQ_of_le {q : ℚ} {v : Int} (h : (v : ℚ) ≤ q) : v ≤ truncQ q := by
  unfold truncQ
  split
  · have hc : (v : ℚ) ≤ ((⌈q⌉ : ℚ)) := le_trans h (Int.le_ceil q)
    exact_mod_cast hc
  · exact Int.le_floor.mpr h

/-- C6: with positive scale, the generated `is_in_range` never rejects a raw
value whose physical image lies within the declared bounds: truncation
toward zero of the converted bounds, with the conjunct-omission rules of
`_generate_is_in_range`, accepts every representable `v` with
`minimum ≤ v * scale + offset ≤ maximum`. -/
theorem c6_is_in_range_complete (sig : RangeSignal) (v : Int)
    (hscale : 0 < sig.scale)
    (hrep1 : ctypeMin sig.ctype ≤ v) (hrep2 : v ≤ ctypeMax sig.ctype)
    (hmin : ∀ m ∈ sig.minimum, m ≤ (v : ℚ) * sig.scale + sig.offset)
    (hmax : ∀ m ∈ sig.maximum, (v : ℚ) * sig.scale + sig.offset ≤ m) :
    isInRangeCheck sig v = true := by
  unfold isInRangeCheck
  rw [Bool.and_eq_true]
  constructor
  · unfold rangeMinRaw
    cases hb : sig.minimum with
    | none => rfl
    | some m =>
      have hphys : m ≤ (v : ℚ) * sig.scale + sig.offset := hmin m (by simp [hb])
      simp only [Option.map_some']
      split
      · rfl
      · rw [decide_eq_true_eq]
        apply truncQ_le_of_le
        rw [div_sub_div_same, div_le_iff hscale]
        linarith
  · unfold rangeMaxRaw
    cases hb : sig.maximum with
    | none => rfl
    | some m =>
      have hphys : (v : ℚ) * sig.scale + sig.offset ≤ m := hmax m (by simp [hb])
      simp only [Option.map_some']
      split
      · rfl
      · rw [decide_eq_true_eq]
        apply le_truncQ_of_le
        rw [div_sub_div_same, le_div_iff hscale]
        linarith

/-- C6 witness: `scale = 2`, `offset = 1`, physical bounds `[3, 21]`,
`int8_t`, raw value `5` (physical `11`). -/
theorem c6_is_in_range_complete_witness :
    (0 : ℚ) < 2 ∧
    ctypeMin ⟨true, 8⟩ ≤ (5 : Int) ∧ (5 : Int) ≤ ctypeMax ⟨true, 8⟩ ∧
    isInRangeCheck ⟨2, 1, some 3, some 21, ⟨true, 8⟩⟩ 5 = true :=
  ⟨by norm_num, by decide, by decide,
    c6_is_in_range_complete ⟨2, 1, some 3, some 21, ⟨true, 8⟩⟩ 5
      (by norm_num) (by decide) (by decide)
      (by intro m hm; simp only [Option.mem_def, Option.some.injEq] at hm
          subst hm; norm_num)
      (by intro m hm; simp only [Option.mem_def, Option.some.injEq] at hm
          subst hm; norm_num)⟩

/-! ### Claim C7: `Cli.fill_data`

`fill_data(msg, data, default=0)` walks the message's signals and, for every
signal whose name is not a key of `data`, inserts the signal's minimum when
`minimum is not None and default < minimum`, else `default`.  The value
mapping is modelled as a function `String → Option ℚ`. -/

structure CliSignal where
  name : String
  minimum : Option ℚ

/-- The value `fill_data` inserts for a missing signal. -/
def fillValue (sig : CliSignal) (dflt : ℚ) : ℚ :=
  match sig.minimum with
  | some m => if dflt < m then m else dflt
  | none => dflt

def fill_data : List CliSignal → (String → Option ℚ) → ℚ → (String → Option ℚ)
| [], data, _ => data
| sig :: rest, data, dflt =>
  fill_data rest
    (if (data sig.name).isSome then data
     else fun n => if n = sig.name then some (fillValue sig dflt) else data n)
    dflt

lemma fill_data_preserves (signals : List CliSignal)
    (data : String → Option ℚ) (dflt : ℚ) (name : String) (v : ℚ)
    (h : data name = some v) : fill_data signals data dflt name = some v := by
  induction signals generalizing data with
  | nil => exact h
  | cons sig rest ih =>
    rw [fill_data]
    split
    · exact ih data h
    · rename_i hsome
      apply ih
      by_cases hn : name = sig.name
      · subst hn
        rw [h] at hsome
        simp at hsome
      · simp [hn, h]

lemma fill_data_missing (signals : List CliSignal)
    (data : String → Option ℚ) (dflt : ℚ) (sig : CliSignal)
    (hnodup : (signals.map CliSignal.name).Nodup)
    (hmem : sig ∈ signals) (hmiss : data sig.name = none) :
    fill_data signals data dflt sig.name = some (fillValue sig dflt) := by
  induction signals generalizing data with
  | nil => cases hmem
  | cons head rest ih =>
    rcases List.mem_cons.mp hmem with rfl | hrest
    · rw [fill_data]
      rw [if_neg (by simp [hmiss])]
      apply fill_data_preserves
      simp
    · have hne : head.name ≠ sig.name := by
        intro he
        have : sig.name ∈ rest.map CliSignal.name :=
          List.mem_map.mpr ⟨sig, hrest, rfl⟩
        rw [List.map_cons] at hnodup
        exact (List.nodup_cons.mp hnodup).1 (he ▸ this)
      rw [fill_data]
      have hnodup2 : (rest.map CliSignal.name).Nodup :=
        (List.nodup_cons.mp (List.map_cons _ _ _ ▸ hnodup)).2
      split
      · exact ih _ hnodup2 hrest hmiss
      · apply ih _ hnodup2 hrest
        simp [Ne.symm hne, hmiss]

/-- C7: after `fill_data(msg, data)` with default `0` (and distinct signal
names, as in a well-formed message), every signal of the message has an
entry; entries present before the call keep their values; each previously
missing signal gets its declared minimum when that minimum is defined and
greater than `0`, else `0`. -/
theorem c7_fill_data (signals : List CliSignal) (data : String → Option ℚ)
    (hnodup : (signals.map CliSignal.name).Nodup) :
    (∀ sig ∈ signals, (fill_data signals data 0 sig.name).isSome) ∧
    (∀ name v, data name = some v → fill_data signals data 0 name = some v) ∧
    (∀ sig ∈ signals, data sig.name = none →
      fill_data signals data 0 sig.name =
        some (match sig.minimum with
              | some m => if 0 < m then m else 0
              | none => 0)) := by
  refine ⟨?_, ?_, ?_⟩
  · intro sig hmem
    cases hd : data sig.name with
    | none =>
      rw [fill_data_missing signals data 0 sig hnodup hmem hd]
      rfl
    | some v =>
      rw [fill_data_preserves signals data 0 sig.name v hd]
      rfl
  · intro name v h
    exact fill_data_preserves signals data 0 name v h
  · intro sig hmem hmiss
    exact fill_data_missing signals data 0 sig hnodup hmem hmiss

/-- C7 witness: two signals (`a` missing with minimum `3`, `b` present),
starting mapping holding only `b`. -/
theorem c7_fill_data_witness :
    ((([⟨"a", some 3⟩, ⟨"b", none⟩] : List CliSignal).map CliSignal.name).Nodup) ∧
    (fill_data [⟨"a", some 3⟩, ⟨"b", none⟩]
      (fun n => if n = "b" then some 7 else none) 0 "a" = some 3 ∧
     fill_data [⟨"a", some 3⟩, ⟨"b", none⟩]
      (fun n => if n = "b" then some 7 else none) 0 "b" = some 7) :=
  ⟨by decide,
    (c7_fill_data [⟨"a", some 3⟩, ⟨"b", none⟩]
        (fun n => if n = "b" then some 7 else none)
        (by decide)).2.2 ⟨"a", some 3⟩ (by simp) (by decide),
    (c7_fill_data [⟨"a", some 3⟩, ⟨"b", none⟩]
        (fun n => if n = "b" then some 7 else none)
        (by decide)).2.1 "b" 7 (by decide)⟩

/-! ### Claim C8: `nodes.split_can_id` with unknown node-id count

With `multiple_nodes` enabled and `number_node_ids is None`, the source runs
`node_id = 0; while msg_id not in known_message_ids: msg_id -= 1;
node_id += 1` and returns `(msg_id, node_id)`.  The loop is modelled with
fuel; fuel `frame_id` is enough whenever some known id is `≤ frame_id`. -/

def split_loop (known : List Nat) : Nat → Nat → Option (Nat × Nat)
| msg_id, 0 => if msg_id ∈ known then some (msg_id, 0) else none
| msg_id, fuel + 1 =>
  if msg_id ∈ known then some (msg_id, 0)
  else (split_loop known (msg_id - 1) fuel).map (fun p => (p.1, p.2 + 1))

def split_can_id (known : List Nat) (frame_id : Nat) : Option (Nat × Nat) :=
  split_loop known frame_id frame_id

lemma split_loop_spec (known : List Nat) (m : Nat) (hm : m ∈ known) :
    ∀ fuel msg_id, m ≤ msg_id → msg_id - m ≤ fuel →
      (∀ k ∈ known, k ≤ msg_id → k ≤ m) →
      split_loop known msg_id fuel = some (m, msg_id - m) := by
  intro fuel
  induction fuel with
  | zero =>
    intro msg_id hle hfuel _
    have : msg_id = m := by omega
    subst this
    simp [split_loop, hm]
  | succ fuel ih =>
    intro msg_id hle hfuel hmax
    by_cases hin : msg_id ∈ known
    · have h1 : msg_id ≤ m := hmax msg_id hin le_rfl
      have : msg_id = m := by omega
      subst this
      simp [split_loop, hin]
    · have hne : m ≠ msg_id := fun he => hin (he ▸ hm)
      have hlt : m < msg_id := by omega
      rw [split_loop, if_neg hin]
      rw [ih (msg_id - 1) (by omega) (by omega)
        (fun k hk hk2 => hmax k hk (by omega))]
      have harith : msg_id - 1 - m + 1 = msg_id - m := by omega
      simp only [Option.map_some', harith]

/-- C8: with multiple-node mode on and the node-id count unspecified,
`split_can_id(frame_id)` terminates and returns `(m, frame_id - m)` where
`m` is the largest frame id in the database that is `≤ frame_id`, whenever
such an `m` exists. -/
theorem c8_split_can_id (known : List Nat) (frame_id m : Nat)
    (hm : m ∈ known) (hle : m ≤ frame_id)
    (hmax : ∀ k ∈ known, k ≤ frame_id → k ≤ m) :
    split_can_id known frame_id = some (m, frame_id - m) :=
  split_loop_spec known m hm frame_id frame_id hle (by omega) hmax

/-- C8 witness: database ids `{0x10, 0x20}`, received frame id `0x25`. -/
theorem c8_split_can_id_witness :
    (0x20 : Nat) ∈ [0x10, 0x20] ∧ (0x20 : Nat) ≤ 0x25 ∧
    (∀ k ∈ [0x10, 0x20], k ≤ 0x25 → k ≤ 0x20) ∧
    split_can_id [0x10, 0x20] 0x25 = some (0x20, 5) :=
  ⟨by decide, by decide, by decide,
    c8_split_can_id [0x10, 0x20] 0x25 0x20 (by decide) (by decide) (by decide)⟩

/-! ### Log reader (`logreader.py`)

The four candump regexes are anchored and built from disjoint follow sets,
so each is equivalent to the deterministic maximal-munch recognizer written
below (each character class run is maximal and is followed by a character
outside the class; the lazy `^\s*?` before a non-whitespace class is the
same as skipping all leading whitespace; the greedy `\s*` before the
trailing `[0-9A-F ]*$` group takes the maximal whitespace run, and a failure
afterwards cannot be repaired because only spaces could move between the two
groups and space belongs to the data class while tab does not).
`float()` and `unhexlify` raising on malformed groups is modelled by
`Option.none`. -/

def isWS (c : Char) : Bool := c = ' ' || c = '\t'

def isDigitChar (c : Char) : Bool := '0' ≤ c && c ≤ '9'

def isUpperHexChar (c : Char) : Bool :=
  isDigitChar c || ('A' ≤ c && c ≤ 'F')

def isAlnumChar (c : Char) : Bool :=
  isDigitChar c || ('a' ≤ c && c ≤ 'z') || ('A' ≤ c && c ≤ 'Z')

def isFloatChar (c : Char) : Bool := isDigitChar c || c = '.'

def isHexSpaceChar (c : Char) : Bool := isUpperHexChar c || c = ' '

/-- One-or-more run of a character class (`[..]+`). -/
def span1 (p : Char → Bool) (cs : List Char) :
    Option (List Char × List Char) :=
  if (cs.takeWhile p).isEmpty then none
  else some (cs.takeWhile p, cs.dropWhile p)

def expectChar (c : Char) : List Char → Option (List Char)
| [] => none
| x :: xs => if x = c then some xs else none

/-- `\s+`. -/
def skipWS1 (cs : List Char) : Option (List Char) :=
  (span1 isWS cs).map Prod.snd

/-- Exactly `n` digits (`\d{n}`). -/
def takeDigits (n : Nat) (cs : List Char) :
    Option (List Char × List Char) :=
  if (cs.take n).length = n && (cs.take n).all isDigitChar then
    some (cs.take n, cs.drop n)
  else none

/-- The groups shared by the three bracketed-length patterns. -/
structure BodyGroups where
  channel : String
  can_id : String
  can_data : String
deriving DecidableEq

/-- `(channel)\s+(can_id)\s+\[\d+\]\s*(can_data)$` with
`channel = [a-zA-Z0-9]+`, `can_id = [0-9A-F]+`, `can_data = [0-9A-F ]*`. -/
def matchBody (cs0 : List Char) : Option BodyGroups := do
  let (channel, cs1) ← span1 isAlnumChar cs0
  let cs2 ← skipWS1 cs1
  let (canId, cs3) ← span1 isUpperHexChar cs2
  let cs4 ← skipWS1 cs3
  let cs5 ← expectChar '[' cs4
  let (_, cs6) ← span1 isDigitChar cs5
  let cs7 ← expectChar ']' cs6
  let rest := cs7.dropWhile isWS
  if rest.all isHexSpaceChar then
    some ⟨String.mk channel, String.mk canId, String.mk rest⟩
  else
    none

/-- `CandumpDefaultPattern.pattern.match(line)`. -/
def candumpDefaultGroups (line : String) : Option BodyGroups :=
  matchBody (line.data.dropWhile isWS)

structure TimestampedGroups where
  timestamp : String
  channel : String
  can_id : String
  can_data : String
deriving DecidableEq

/-- `CandumpTimestampedPattern.pattern.match(line)`:
`^\s*?\((timestamp)\)\s+` with `timestamp = [\d.]+`, then the body. -/
def candumpTimestampedGroups (line : String) :
    Option TimestampedGroups := do
  let cs1 ← expectChar '(' (line.data.dropWhile isWS)
  let (ts, cs2) ← span1 isFloatChar cs1
  let cs3 ← expectChar ')' cs2
  let cs4 ← skipWS1 cs3
  let body ← matchBody cs4
  some ⟨String.mk ts, body.channel, body.can_id, body.can_data⟩

structure DefaultLogGroups where
  timestamp : String
  channel : String
  can_id : String
  can_data : String
deriving DecidableEq

/-- `CandumpDefaultLogPattern.pattern.match(line)`:
`^\s*?\((timestamp)\)\s+(channel)\s+(can_id)#(#[0-9A-F])?(can_data)$` with
`can_data = [0-9A-F]*`. -/
def candumpDefaultLogGroups (line : String) :
    Option DefaultLogGroups := do
  let cs1 ← expectChar '(' (line.data.dropWhile isWS)
  let (ts, cs2) ← span1 isFloatChar cs1
  let cs3 ← expectChar ')' cs2
  let cs4 ← skipWS1 cs3
  let (channel, cs5) ← span1 isAlnumChar cs4
  let cs6 ← skipWS1 cs5
  let (canId, cs7) ← span1 isUpperHexChar cs6
  let cs8 ← expectChar '#' cs7
  let cs9 := match cs8 with
             | '#' :: d :: rest =>
               if isUpperHexChar d then rest else '#' :: d :: rest
             | other => other
  if cs9.all isUpperHexChar then
    some ⟨String.mk ts, String.mk channel, String.mk canId, String.mk cs9⟩
  else
    none

structure AbsoluteLogGroups where
  timestamp : String
  channel : String
  can_id : String
  can_data : String
deriving DecidableEq

/-- `\d{4}-\d{2}-\d{2}`: the date part of the absolute-log timestamp. -/
def matchDateYMD (cs : List Char) : Option (List Char × List Char) := do
  let (y, cs2) ← takeDigits 4 cs
  let cs3 ← expectChar '-' cs2
  let (mo, cs4) ← takeDigits 2 cs3
  let cs5 ← expectChar '-' cs4
  let (d, cs6) ← takeDigits 2 cs5
  some (y ++ ['-'] ++ mo ++ ['-'] ++ d, cs6)

/-- `\d{2}:\d{2}:\d{2}\.\d+`: the time part of the absolute-log timestamp. -/
def matchTimeHMS (cs : List Char) : Option (List Char × List Char) := do
  let (hh, cs2) ← takeDigits 2 cs
  let cs3 ← expectChar ':' cs2
  let (mi, cs4) ← takeDigits 2 cs3
  let cs5 ← expectChar ':' cs4
  let (ss, cs6) ← takeDigits 2 cs5
  let cs7 ← expectChar '.' cs6
  let (frac, cs8) ← span1 isDigitChar cs7
  some (hh ++ [':'] ++ mi ++ [':'] ++ ss ++ ['.'] ++ frac, cs8)

/-- `CandumpAbsoluteLogPattern.pattern.match(line)`:
`^\s*?\((\d{4}-\d{2}-\d{2} \d{2}:\d{2}:\d{2}\.\d+)\)\s+` then the body. -/
def candumpAbsoluteLogGroups (line : String) :
    Option AbsoluteLogGroups := do
  let cs1 ← expectChar '(' (line.data.dropWhile isWS)
  let (ymd, cs2) ← matchDateYMD cs1
  let cs3 ← expectChar ' ' cs2
  let (hms, cs4) ← matchTimeHMS cs3
  let cs5 ← expectChar ')' cs4
  let cs6 ← skipWS1 cs5
  let body ← matchBody cs6
  some ⟨String.mk (ymd ++ [' '] ++ hms),
    body.channel, body.can_id, body.can_data⟩

/-! ### Group conversions (`unpack`) -/

def digitVal (c : Char) : Nat := c.toNat - '0'.toNat

/-- Hex digit value (the regexes only produce `0-9A-F`). -/
def hexVal (c : Char) : Nat :=
  if isDigitChar c then digitVal c else c.toNat - 'A'.toNat + 10

def digitsToNat (cs : List Char) : Nat :=
  cs.foldl (fun acc c => 10 * acc + digitVal c) 0

/-- `int(s, 16)`. -/
def hexToNat (cs : List Char) : Nat :=
  cs.foldl (fun acc c => 16 * acc + hexVal c) 0

/-- `data.replace(' ', '')`. -/
def removeSpaces (s : String) : String :=
  String.mk (s.data.filter (fun c => c ≠ ' '))

/-- `binascii.unhexlify`, `none` where Python raises (odd length or
non-hex digit). -/
def unhexlify : List Char → Option (List Nat)
| [] => some []
| a :: b :: rest =>
  if isUpperHexChar a && isUpperHexChar b then
    (unhexlify rest).map (fun l => (16 * hexVal a + hexVal b) :: l)
  else none
| [_] => none

/-- `float(s)` on a `[\d.]+` string, as an exact rational; `none` where
Python raises (no digits, or more than one dot). -/
def parseFloatQ (cs : List Char) : Option ℚ :=
  match cs.dropWhile isDigitChar with
  | [] =>
    if (cs.takeWhile isDigitChar).isEmpty then none
    else some ((digitsToNat (cs.takeWhile isDigitChar) : ℚ))
  | '.' :: frac =>
    if frac.all isDigitChar &&
        !((cs.takeWhile isDigitChar).isEmpty && frac.isEmpty) then
      some ((digitsToNat (cs.takeWhile isDigitChar) : ℚ) +
        (digitsToNat frac : ℚ) / (10 : ℚ) ^ frac.length)
    else none
  | _ => none

inductive TimestampFormat
| ABSOLUTE
| RELATIVE
| MISSING
deriving DecidableEq

/-- The timestamp value stored in a `DataFrame`: `None`, a
`datetime.timedelta(seconds=..)`, a `datetime.datetime.utcfromtimestamp(..)`
or a `datetime.datetime.strptime(..)` result (kept as the matched text). -/
inductive Timestamp
| missing
| timedelta (seconds : ℚ)
| utcFromTimestamp (seconds : ℚ)
| strptimeParsed (text : String)
deriving DecidableEq

structure DataFrame where
  channel : String
  frame_id : Nat
  data : List Nat
  timestamp : Timestamp
  timestamp_format : TimestampFormat
  length : Nat
deriving DecidableEq

/-- The `DataFrame` constructor with `length=None` (so `length = len(data)`). -/
def DataFrame.make (channel : String) (frame_id : Nat) (data : List Nat)
    (timestamp : Timestamp) (fmt : TimestampFormat) : DataFrame :=
  ⟨channel, frame_id, data, timestamp, fmt, data.length⟩

/-- `CandumpDefaultPattern.unpack`. -/
def candumpDefaultUnpack (g : BodyGroups) : Option DataFrame :=
  (unhexlify (removeSpaces g.can_data).data).map fun bytes =>
    DataFrame.make g.channel (hexToNat g.can_id.data) bytes
      .missing .MISSING

/-- `CandumpTimestampedPattern.unpack`: relative timestamp below the
1991-01-01 threshold `662688000`, absolute above. -/
def candumpTimestampedUnpack (g : TimestampedGroups) : Option DataFrame :=
  match unhexlify (removeSpaces g.can_data).data with
  | none => none
  | some bytes =>
    match parseFloatQ g.timestamp.data with
    | none => none
    | some seconds =>
      if seconds < 662688000 then
        some (DataFrame.make g.channel (hexToNat g.can_id.data) bytes
          (.timedelta seconds) .RELATIVE)
      else
        some (DataFrame.make g.channel (hexToNat g.can_id.data) bytes
          (.utcFromTimestamp seconds) .ABSOLUTE)

/-- `CandumpDefaultLogPattern.unpack`. -/
def candumpDefaultLogUnpack (g : DefaultLogGroups) : Option DataFrame := do
  let bytes ← unhexlify (removeSpaces g.can_data).data
  let seconds ← parseFloatQ g.timestamp.data
  some (DataFrame.make g.channel (hexToNat g.can_id.data) bytes
    (.utcFromTimestamp seconds) .ABSOLUTE)

/-- `CandumpAbsoluteLogPattern.unpack`. -/
def candumpAbsoluteLogUnpack (g : AbsoluteLogGroups) : Option DataFrame := do
  let bytes ← unhexlify (removeSpaces g.can_data).data
  some (DataFrame.make g.channel (hexToNat g.can_id.data) bytes
    (.strptimeParsed g.timestamp) .ABSOLUTE)

/-! ### `Parser` state machine -/

inductive PatternKind
| default
| timestamped
| defaultLog
| absoluteLog
deriving DecidableEq

/-- `p.pattern.match(line)` as a boolean (used by `detect_pattern`). -/
def patternRegexMatches (pk : PatternKind) (line : String) : Bool :=
  match pk with
  | .default => (candumpDefaultGroups line).isSome
  | .timestamped => (candumpTimestampedGroups line).isSome
  | .defaultLog => (candumpDefaultLogGroups line).isSome
  | .absoluteLog => (candumpAbsoluteLogGroups line).isSome

/-- `clz.match(line)`: regex match followed by `unpack`. -/
def patternMatch (pk : PatternKind) (line : String) : Option DataFrame :=
  match pk with
  | .default => (candumpDefaultGroups line).bind candumpDefaultUnpack
  | .timestamped => (candumpTimestampedGroups line).bind candumpTimestampedUnpack
  | .defaultLog => (candumpDefaultLogGroups line).bind candumpDefaultLogUnpack
  | .absoluteLog => (candumpAbsoluteLogGroups line).bind candumpAbsoluteLogUnpack

def patternOrder : PatternKind → Nat
| .default => 0
| .timestamped => 1
| .defaultLog => 2
| .absoluteLog => 3

/-- `Parser.detect_pattern`: its `for p in [CandumpDefaultPattern,
CandumpTimestampedPattern, CandumpDefaultLogPattern,
CandumpAbsoluteLogPattern]` loop returns the first pattern whose regex
matches the line, else `None`. -/
def detect_pattern (line : String) : Option PatternKind :=
  if patternRegexMatches .default line then some .default
  else if patternRegexMatches .timestamped line then some .timestamped
  else if patternRegexMatches .defaultLog line then some .defaultLog
  else if patternRegexMatches .absoluteLog line then some .absoluteLog
  else none

/-- The only mutable state of `Parser`: `self.pattern` (starts `None`). -/
structure ParserState where
  pattern : Option PatternKind
deriving DecidableEq

def Parser.init : ParserState := ⟨none⟩

/-- `Parser.parse(line)`: detect the pattern on first use, then apply only
the locked pattern.  Returns the updated state and the parse result. -/
def Parser.parse (st : ParserState) (line : String) :
    ParserState × Option DataFrame :=
  match (match st.pattern with
         | none => detect_pattern line
         | some pk => some pk) with
  | none => (⟨none⟩, none)
  | some pk => (⟨some pk⟩, patternMatch pk line)

/-- `Parser.__iter__` over a list of (already stripped) lines:
non-parseable entries are discarded. -/
def Parser.iterFrames (st : ParserState) : List String → List DataFrame
| [] => []
| line :: rest =>
  match h : Parser.parse st line with
  | (st2, some df) => df :: Parser.iterFrames st2 rest
  | (st2, none) => Parser.iterFrames st2 rest

lemma bind_none_of_isSome_false {α β : Type} {o : Option α}
    (f : α → Option β) (h : o.isSome = false) : o.bind f = none := by
  cases o with
  | none => rfl
  | some a => simp at h

lemma patternMatch_eq_none (pk : PatternKind) (line : String)
    (h : patternRegexMatches pk line = false) :
    patternMatch pk line = none := by
  cases pk <;>
    simp only [patternRegexMatches] at h <;>
    simp only [patternMatch] <;>
    exact bind_none_of_isSome_false _ h

lemma detect_pattern_first (line : String) (q : PatternKind)
    (h : detect_pattern line = some q) :
    patternRegexMatches q line = true ∧
    ∀ q2, patternOrder q2 < patternOrder q →
      patternRegexMatches q2 line = false := by
  unfold detect_pattern at h
  by_cases h0 : patternRegexMatches PatternKind.default line
  · rw [if_pos h0] at h
    injection h with h
    subst h
    refine ⟨h0, ?_⟩
    intro q2 hlt
    cases q2 <;> exact absurd hlt (by decide)
  · have h0f : patternRegexMatches PatternKind.default line = false := by
      simpa using h0
    rw [if_neg h0] at h
    by_cases h1 : patternRegexMatches PatternKind.timestamped line
    · rw [if_pos h1] at h
      injection h with h
      subst h
      refine ⟨h1, ?_⟩
      intro q2 hlt
      cases q2 <;> first
        | exact absurd hlt (by decide)
        | exact h0f
    · have h1f : patternRegexMatches PatternKind.timestamped line = false := by
        simpa using h1
      rw [if_neg h1] at h
      by_cases h2 : patternRegexMatches PatternKind.defaultLog line
      · rw [if_pos h2] at h
        injection h with h
        subst h
        refine ⟨h2, ?_⟩
        intro q2 hlt
        cases q2 <;> first
          | exact absurd hlt (by decide)
          | exact h0f
          | exact h1f
      · have h2f : patternRegexMatches PatternKind.defaultLog line = false := by
          simpa using h2
        rw [if_neg h2] at h
        by_cases h3 : patternRegexMatches PatternKind.absoluteLog line
        · rw [if_pos h3] at h
          injection h with h
          subst h
          refine ⟨h3, ?_⟩
          intro q2 hlt
          cases q2 <;> first
            | exact absurd hlt (by decide)
            | exact h0f
            | exact h1f
            | exact h2f
        · rw [if_neg h3] at h
          cases h

/-- C9: the detected pattern starts as `None` and is assigned at most once:
a parse from the unlocked state stores exactly `detect_pattern`'s result,
which is the first of the four candump patterns (in the fixed source order
Default, Timestamped, DefaultLog, AbsoluteLog) matching the line; a parse
from a locked state keeps the lock and applies only the locked pattern; and
a line that matches a different known pattern but not the locked one
returns `None` and is discarded by iteration. -/
theorem c9_pattern_locking (pk pkOther : PatternKind) (line : String)
    (rest : List String)
    (hne : pkOther ≠ pk)
    (hother : patternRegexMatches pkOther line = true)
    (hlocked : patternRegexMatches pk line = false) :
    Parser.init.pattern = none ∧
    (∀ l, (Parser.parse ⟨some pk⟩ l).1 = ⟨some pk⟩) ∧
    (∀ l, (Parser.parse ⟨none⟩ l).1.pattern = detect_pattern l) ∧
    (∀ l q, detect_pattern l = some q →
      patternRegexMatches q l = true ∧
      ∀ q2, patternOrder q2 < patternOrder q →
        patternRegexMatches q2 l = false) ∧
    (∀ l, (Parser.parse ⟨some pk⟩ l).2 = patternMatch pk l) ∧
    (Parser.parse ⟨some pk⟩ line).2 = none ∧
    Parser.iterFrames ⟨some pk⟩ (line :: rest) =
      Parser.iterFrames ⟨some pk⟩ rest := by
  have hnone : patternMatch pk line = none := patternMatch_eq_none pk line hlocked
  refine ⟨rfl, fun l => rfl, ?_, fun l q hq => detect_pattern_first l q hq,
    fun l => rfl, ?_, ?_⟩
  · intro l
    cases hd : detect_pattern l <;> simp [Parser.parse, hd]
  · simp [Parser.parse, hnone]
  · rw [Parser.iterFrames]
    have hp : Parser.parse ⟨some pk⟩ line = (⟨some pk⟩, none) := by
      simp [Parser.parse, hnone]
    rw [hp]

/-- C9 witness: a parser locked on the Default pattern fed a DefaultLog
line (which matches the DefaultLog pattern but not the Default one). -/
theorem c9_pattern_locking_witness :
    (PatternKind.defaultLog ≠ PatternKind.default) ∧
    patternRegexMatches PatternKind.defaultLog
      "(1579857014.345944) can2 486#82967A6B006B07F8" = true ∧
    patternRegexMatches PatternKind.default
      "(1579857014.345944) can2 486#82967A6B006B07F8" = false ∧
    (Parser.parse ⟨some PatternKind.default⟩
      "(1579857014.345944) can2 486#82967A6B006B07F8").2 = none ∧
    Parser.iterFrames ⟨some PatternKind.default⟩
      ["(1579857014.345944) can2 486#82967A6B006B07F8", "vcan0  1F0   [1]  2A"] =
    Parser.iterFrames ⟨some PatternKind.default⟩ ["vcan0  1F0   [1]  2A"] :=
  ⟨by decide, by decide, by decide,
    (c9_pattern_locking PatternKind.default PatternKind.defaultLog
      "(1579857014.345944) can2 486#82967A6B006B07F8"
      ["vcan0  1F0   [1]  2A"]
      (by decide) (by decide) (by decide)).2.2.2.2.2.1,
    (c9_pattern_locking PatternKind.default PatternKind.defaultLog
      "(1579857014.345944) can2 486#82967A6B006B07F8"
      ["vcan0  1F0   [1]  2A"]
      (by decide) (by decide) (by decide)).2.2.2.2.2.2⟩

/-- C10: every `DataFrame` produced by `CandumpTimestampedPattern.unpack`
has `timestamp_format` RELATIVE with a timedelta timestamp exactly when the
parsed seconds value is below `662688000`, and ABSOLUTE with a
`utcfromtimestamp` datetime otherwise; its `frame_id` is the hexadecimal
parse of the id field, and its `data` is the unhexlified data field with
spaces removed. -/
theorem c10_timestamped_unpack (g : TimestampedGroups) (df : DataFrame)
    (secs : ℚ)
    (hunpack : candumpTimestampedUnpack g = some df)
    (hsecs : parseFloatQ g.timestamp.data = some secs) :
    ((df.timestamp_format = .RELATIVE ∧ df.timestamp = .timedelta secs) ↔
      secs < 662688000) ∧
    ((df.timestamp_format = .ABSOLUTE ∧
      df.timestamp = .utcFromTimestamp secs) ↔ ¬(secs < 662688000)) ∧
    df.frame_id = hexToNat g.can_id.data ∧
    unhexlify (removeSpaces g.can_data).data = some df.data := by
  unfold candumpTimestampedUnpack at hunpack
  cases hbytes : unhexlify (removeSpaces g.can_data).data with
  | none => rw [hbytes] at hunpack; cases hunpack
  | some bytes =>
    rw [hbytes, hsecs] at hunpack
    have hunpack2 :
        (if secs < 662688000 then
          some (DataFrame.make g.channel (hexToNat g.can_id.data) bytes
            (.timedelta secs) .RELATIVE)
        else
          some (DataFrame.make g.channel (hexToNat g.can_id.data) bytes
            (.utcFromTimestamp secs) .ABSOLUTE)) = some df := hunpack
    by_cases hc : secs < 662688000
    · rw [if_pos hc] at hunpack2
      have hdf := Option.some.inj hunpack2
      subst hdf
      refine ⟨?_, ?_, rfl, rfl⟩ <;> simp [DataFrame.make, hc]
    · rw [if_neg hc] at hunpack2
      have hdf := Option.some.inj hunpack2
      subst hdf
      refine ⟨?_, ?_, rfl, rfl⟩ <;> simp [DataFrame.make, hc]

/-- C10 witness: the group values matched out of
`(12)  vcan0  1F0   [2]  01 AB`. -/
theorem c10_timestamped_unpack_witness :
    candumpTimestampedUnpack ⟨"12", "vcan0", "1F0", "01 AB"⟩ =
      some (DataFrame.make "vcan0" 0x1F0 [0x01, 0xAB]
        (.timedelta 12) .RELATIVE) ∧
    parseFloatQ ("12" : String).data = some 12 ∧
    (((DataFrame.make "vcan0" 0x1F0 [0x01, 0xAB]
        (.timedelta 12) .RELATIVE).timestamp_format = .RELATIVE ∧
      (DataFrame.make "vcan0" 0x1F0 [0x01, 0xAB]
        (.timedelta 12) .RELATIVE).timestamp =
          .timedelta 12) ↔ (12 : ℚ) < 662688000) ∧
    (DataFrame.make "vcan0" 0x1F0 [0x01, 0xAB]
        (.timedelta 12) .RELATIVE).frame_id =
      hexToNat ("1F0" : String).data :=
  ⟨by decide, by decide,
    (c10_timestamped_unpack ⟨"12", "vcan0", "1F0", "01 AB"⟩
      (DataFrame.make "vcan0" 0x1F0 [0x01, 0xAB]
        (.timedelta 12) .RELATIVE)
      12 (by decide) (by decide)).1,
    (c10_timestamped_unpack ⟨"12", "vcan0", "1F0", "01 AB"⟩
      (DataFrame.make "vcan0" 0x1F0 [0x01, 0xAB]
        (.timedelta 12) .RELATIVE)
      12 (by decide) (by decide)).2.2.1⟩

end Cantools
